import Mathlib

/-!
# Authorization core of the collaborative storybook application

A shallow embedding of the database schema, row-level-security (RLS)
policies, trigger and client code of the repository.  The authoritative
state of the database is the one obtained after applying the three
migrations in timestamp order; the last migration
(`20260119203607_e9c55101`) drops and recreates most policies, so the
definitions below embed the policies as they stand after it:

* `stories` SELECT: policy "Users can view public stories or their stories";
* `stories` INSERT: policy "Authenticated users can create stories"
  (from the first migration, never dropped);
* `stories` UPDATE/DELETE: permissive policies
  "Members can target their stories (base)" /
  "Members can target their stories for delete (base)" combined with the
  RESTRICTIVE policies "Only owners can update stories" /
  "Only owners can delete stories" (PostgreSQL grants access when some
  permissive policy passes AND every restrictive policy passes);
* `story_members` SELECT: policy "Users can view their own memberships";
* `story_members` INSERT: policy "Creators can insert their owner membership"
  (the second migration's "Story owners can insert members" is dropped by
  the last migration and not recreated);
* `story_members` DELETE: no policy at all after the last migration
  (it drops "Story owners can remove members" / "Story owners can delete
  members" and creates no replacement); with RLS enabled and no policy
  for a command, PostgreSQL denies every row.

The trigger `create_owner_membership_on_story_insert` runs
`handle_new_story_owner_membership` (SECURITY DEFINER, bypassing RLS)
after each insert into `stories`.
-/

namespace Storybook

/-- Opaque user identity (`auth.users.id`, a UUID in the source). -/
abbrev UserId := Nat

/-- Story identity (`stories.id`, a UUID in the source). -/
abbrev StoryId := Nat

/-- The `role` column of `story_members`:
`CHECK (role IN ('owner', 'member'))`. -/
inductive Role where
  | owner
  | member
deriving DecidableEq, Repr

/-- A row of `public.stories`; only the columns the authorization core
reads (`id`, `is_public`, `created_by`) plus the title are embedded. -/
structure Story where
  id : StoryId
  title : String
  is_public : Bool
  created_by : UserId
deriving DecidableEq, Repr

/-- A row of `public.story_members`. -/
structure Membership where
  story_id : StoryId
  user_id : UserId
  role : Role
deriving DecidableEq, Repr

/-- The database state: the two tables the authorization core touches. -/
structure DB where
  stories : List Story
  story_members : List Membership
deriving DecidableEq, Repr

/-- SQL helper `public.is_story_creator(_story_id, _user_id)`
(SECURITY DEFINER): `EXISTS (SELECT 1 FROM stories s WHERE s.id = _story_id
AND s.created_by = _user_id)`. -/
def is_story_creator (db : DB) (sid : StoryId) (uid : UserId) : Bool :=
  db.stories.any fun s => s.id == sid && s.created_by == uid

/-- SQL helper `public.is_story_owner(_story_id, _user_id)`
(SECURITY DEFINER): `EXISTS (SELECT 1 FROM story_members sm WHERE
sm.story_id = _story_id AND sm.user_id = _user_id AND sm.role = 'owner')`. -/
def is_story_owner (db : DB) (sid : StoryId) (uid : UserId) : Bool :=
  db.story_members.any fun m =>
    m.story_id == sid && m.user_id == uid && m.role == Role.owner

/-- The membership subquery used by the stories policies:
`id IN (SELECT story_id FROM story_members WHERE user_id = auth.uid())`. -/
def is_story_member (db : DB) (sid : StoryId) (uid : UserId) : Bool :=
  db.story_members.any fun m => m.story_id == sid && m.user_id == uid

/-- Policy "Users can view public stories or their stories"
(`stories` FOR SELECT): `is_public = true OR id IN (SELECT story_id FROM
story_members WHERE user_id = auth.uid())`. -/
def stories_select_policy (db : DB) (caller : UserId) (s : Story) : Bool :=
  s.is_public || is_story_member db s.id caller

/-- Policy "Authenticated users can create stories" (`stories` FOR INSERT,
first migration, never dropped): `auth.uid() = created_by`. -/
def stories_insert_policy (caller : UserId) (s : Story) : Bool :=
  caller == s.created_by

/-- Permissive policy "Members can target their stories (base)"
(`stories` FOR UPDATE): same predicate as the SELECT policy. -/
def stories_update_base (db : DB) (caller : UserId) (s : Story) : Bool :=
  s.is_public || is_story_member db s.id caller

/-- Restrictive policy "Only owners can update stories"
(`stories` AS RESTRICTIVE FOR UPDATE): `EXISTS (... sm.story_id = stories.id
AND sm.user_id = auth.uid() AND sm.role = 'owner')`. -/
def stories_update_restrictive (db : DB) (caller : UserId) (s : Story) : Bool :=
  is_story_owner db s.id caller

/-- Permissive policy "Members can target their stories for delete (base)"
(`stories` FOR DELETE). -/
def stories_delete_base (db : DB) (caller : UserId) (s : Story) : Bool :=
  s.is_public || is_story_member db s.id caller

/-- Restrictive policy "Only owners can delete stories"
(`stories` AS RESTRICTIVE FOR DELETE). -/
def stories_delete_restrictive (db : DB) (caller : UserId) (s : Story) : Bool :=
  is_story_owner db s.id caller

/-- Net UPDATE decision on a `stories` row: PostgreSQL requires some
permissive policy AND every restrictive policy, so the decision is the
base policy AND the restrictive owner policy. -/
def stories_update_policy (db : DB) (caller : UserId) (s : Story) : Bool :=
  stories_update_base db caller s && stories_update_restrictive db caller s

/-- Net DELETE decision on a `stories` row: base AND restrictive. -/
def stories_delete_policy (db : DB) (caller : UserId) (s : Story) : Bool :=
  stories_delete_base db caller s && stories_delete_restrictive db caller s

/-- Policy "Users can view their own memberships" (`story_members`
FOR SELECT): `auth.uid() = user_id`. -/
def story_members_select_policy (caller : UserId) (m : Membership) : Bool :=
  caller == m.user_id

/-- Policy "Creators can insert their owner membership" (`story_members`
FOR INSERT): `user_id = auth.uid() AND role = 'owner' AND
public.is_story_creator(story_id, auth.uid())`.  This is the ONLY insert
policy after the last migration: it drops the second migration's
"Story owners can insert members" policy and does not recreate it. -/
def story_members_insert_policy (db : DB) (caller : UserId) (m : Membership) : Bool :=
  m.user_id == caller && m.role == Role.owner &&
    is_story_creator db m.story_id caller

/-- DELETE decision on a `story_members` row.  The last migration drops
"Story owners can remove members" and "Story owners can delete members"
and creates no DELETE policy on `story_members`; with RLS enabled and no
policy for a command PostgreSQL's default is to deny every row. -/
def story_members_delete_policy (_db : DB) (_caller : UserId)
    (_m : Membership) : Bool :=
  false

/-- Spec §6 decision entry point `canManageMembers(caller, resourceId)`:
in the source it is the owner-membership lookup `public.is_story_owner`
(the predicate every owner-gated policy consults). -/
def canManageMembers (db : DB) (caller : UserId) (sid : StoryId) : Bool :=
  is_story_owner db sid caller

/-- Errors a database statement can surface. -/
inductive DbError where
  | conflict
  | forbidden
deriving DecidableEq, Repr

/-- A raw `INSERT INTO story_members` without an `ON CONFLICT` clause:
the unique constraint `UNIQUE(story_id, user_id)` (and the unique index
`story_members_story_id_user_id_uniq`) rejects a second row for the same
(story_id, user_id) pair with a uniqueness violation. -/
def rawInsertMember (db : DB) (m : Membership) : Except DbError DB :=
  if db.story_members.any
      (fun x => x.story_id == m.story_id && x.user_id == m.user_id) then
    .error .conflict
  else
    .ok { db with story_members := m :: db.story_members }

/-- Trigger function `public.handle_new_story_owner_membership`
(SECURITY DEFINER, so no RLS check applies to its insert):
`INSERT INTO story_members (story_id, user_id, role)
VALUES (NEW.id, NEW.created_by, 'owner')
ON CONFLICT (story_id, user_id) DO NOTHING; RETURN NEW;` —
the conflict is absorbed and the function always completes normally. -/
def handle_new_story_owner_membership (db : DB) (new : Story) : DB :=
  match rawInsertMember db ⟨new.id, new.created_by, Role.owner⟩ with
  | .ok db1 => db1
  | .error _ => db

/-- `INSERT INTO stories`, RLS-gated by "Authenticated users can create
stories", followed synchronously (same transaction) by the AFTER INSERT
trigger `create_owner_membership_on_story_insert`.  The primary-key guard
models `id UUID PRIMARY KEY DEFAULT gen_random_uuid()`: a new story's id
never collides with an existing one.  A denied or colliding insert leaves
the state unchanged. -/
def createStory (caller : UserId) (st : Story) (db : DB) : DB :=
  if stories_insert_policy caller st &&
      db.stories.all (fun s => !(s.id == st.id)) then
    handle_new_story_owner_membership
      { db with stories := st :: db.stories } st
  else
    db

/-- API-level `INSERT INTO story_members` by `caller`: the RLS insert
policy is checked first (a failing row is a `Forbidden` error), then the
uniqueness constraint (a duplicate pair is a `Conflict`). -/
def addMember (caller : UserId) (m : Membership) (db : DB) :
    DbError ⊕ DB :=
  if story_members_insert_policy db caller m then
    match rawInsertMember db m with
    | .ok db1 => .inr db1
    | .error e => .inl e
  else
    .inl .forbidden

/-- `DELETE FROM story_members WHERE story_id = sid AND user_id = uid`
issued by `caller`: RLS deletes exactly the rows that match the WHERE
clause AND pass some permissive DELETE policy; rows failing the policy
are silently retained (no error), so the statement succeeds whether or
not it removed anything. -/
def removeMember (caller : UserId) (sid : StoryId) (uid : UserId)
    (db : DB) : DB :=
  { db with
    story_members := db.story_members.filter fun m =>
      !(m.story_id == sid && m.user_id == uid &&
        story_members_delete_policy db caller m) }

/-- `UPDATE stories SET is_public = pub WHERE id = sid` issued by
`caller`: RLS updates exactly the rows matching the WHERE clause that
pass the permissive base policy AND the restrictive owner policy; other
rows are untouched. -/
def updateStory (caller : UserId) (sid : StoryId) (pub : Bool)
    (db : DB) : DB :=
  { db with
    stories := db.stories.map fun s =>
      if s.id == sid && stories_update_policy db caller s then
        { s with is_public := pub }
      else
        s }

/-- `DELETE FROM stories WHERE id = sid` issued by `caller`: RLS deletes
exactly the rows matching the WHERE clause that pass the base AND
restrictive DELETE policies; `story_members.story_id REFERENCES
stories(id) ON DELETE CASCADE` removes the memberships of every deleted
story. -/
def deleteStory (caller : UserId) (sid : StoryId) (db : DB) : DB :=
  { stories := db.stories.filter fun s =>
      !(s.id == sid && stories_delete_policy db caller s),
    story_members := db.story_members.filter fun m =>
      !(db.stories.any fun s =>
        (s.id == sid && stories_delete_policy db caller s) &&
          s.id == m.story_id) }

/-- The states reachable from an empty database by the modelled
API operations (each already RLS-gated as above). -/
inductive Reachable : DB → Prop where
  | init : Reachable ⟨[], []⟩
  | create (c : UserId) (st : Story) {db : DB} :
      Reachable db → Reachable (createStory c st db)
  | add (c : UserId) (m : Membership) {db db1 : DB} :
      Reachable db → addMember c m db = .inr db1 → Reachable db1
  | remove (c : UserId) (sid : StoryId) (uid : UserId) {db : DB} :
      Reachable db → Reachable (removeMember c sid uid db)
  | update (c : UserId) (sid : StoryId) (pub : Bool) {db : DB} :
      Reachable db → Reachable (updateStory c sid pub db)
  | delete (c : UserId) (sid : StoryId) {db : DB} :
      Reachable db → Reachable (deleteStory c sid db)

/-- Distinctness of story primary keys (`stories.id` is the primary key). -/
def storyIdsNodup (db : DB) : Prop :=
  (db.stories.map Story.id).Nodup

/-- Referential integrity of `story_members.story_id REFERENCES stories(id)`. -/
def membersFkOk (db : DB) : Prop :=
  ∀ m ∈ db.story_members, ∃ s ∈ db.stories, s.id = m.story_id

/-- Spec invariant: every story has at least one owner membership. -/
def storiesOwned (db : DB) : Prop :=
  ∀ s ∈ db.stories, ∃ m ∈ db.story_members,
    m.story_id = s.id ∧ m.role = Role.owner

/-- Spec invariant: the (story_id, user_id) pair is unique across
`story_members` (the `UNIQUE(story_id, user_id)` constraint). -/
def pairsUnique (db : DB) : Prop :=
  (db.story_members.map fun m => (m.story_id, m.user_id)).Nodup

/-- The conjunction of the data-model invariants preserved by every
modelled operation. -/
structure Inv (db : DB) : Prop where
  ids : storyIdsNodup db
  fk : membersFkOk db
  owned : storiesOwned db
  pairs : pairsUnique db

/-- The rows of `story_members` a SELECT by `caller` can return: RLS
filters the table through "Users can view their own memberships". -/
def visibleMembers (db : DB) (caller : UserId) : List Membership :=
  db.story_members.filter fun m => story_members_select_policy caller m

/-- The rows of `stories` a SELECT by `caller` can return: RLS filters
the table through "Users can view public stories or their stories". -/
def visibleStories (db : DB) (caller : UserId) : List Story :=
  db.stories.filter fun s => stories_select_policy db caller s

/-- Fetching one story by id through the RLS-filtered API (the spec's
`canView` surface): the result is the first visible row with that id.
An empty result (`none`) is the uniform denied outcome — the response
carries no information on whether the id was filtered out by the policy
or absent from the table. -/
def fetchStory (db : DB) (caller : UserId) (sid : StoryId) : Option Story :=
  (visibleStories db caller).find? fun s => s.id == sid

/-- The comparison state for the existence-leakage experiment of the
spec's failure semantics: the same database with every trace of story
`sid` removed. -/
def eraseStory (sid : StoryId) (db : DB) : DB :=
  { stories := db.stories.filter fun s => !(s.id == sid),
    story_members := db.story_members.filter fun m => !(m.story_id == sid) }

/-- `fetchStories` of `src/pages/Dashboard.tsx`, run by `caller` against
the RLS-filtered API:
1. `memberData`: `story_members` rows with `.eq('user_id', user?.id)`;
2. `storyIds`: their `story_id`s;
3. `storiesData`: `stories` rows with `.in('id', storyIds)` (the
   `created_at` ordering only permutes the rows and is not modelled);
4. `allMembers`: `story_members` rows with `.in('story_id', storyIds)`;
5. `memberCounts[id]` counts `allMembers` rows per story, and each story
   is paired with `memberCounts[story.id] || 1`. -/
def fetchStories (db : DB) (caller : UserId) : List (Story × Nat) :=
  let memberData :=
    (visibleMembers db caller).filter fun m => m.user_id == caller
  let storyIds := memberData.map Membership.story_id
  let storiesData :=
    (visibleStories db caller).filter fun s => storyIds.contains s.id
  let allMembers :=
    (visibleMembers db caller).filter fun m => storyIds.contains m.story_id
  storiesData.map fun s =>
    let cnt := allMembers.countP fun m => m.story_id == s.id
    (s, if cnt = 0 then 1 else cnt)

theorem is_story_member_iff {db : DB} {sid : StoryId} {uid : UserId} :
    is_story_member db sid uid = true ↔
      ∃ m ∈ db.story_members, m.story_id = sid ∧ m.user_id = uid := by
  simp [is_story_member, List.any_eq_true, Bool.and_eq_true, beq_iff_eq]

theorem is_story_owner_iff {db : DB} {sid : StoryId} {uid : UserId} :
    is_story_owner db sid uid = true ↔
      ∃ m ∈ db.story_members,
        m.story_id = sid ∧ m.user_id = uid ∧ m.role = Role.owner := by
  simp [is_story_owner, List.any_eq_true, Bool.and_eq_true, beq_iff_eq,
    and_assoc]

theorem is_story_creator_iff {db : DB} {sid : StoryId} {uid : UserId} :
    is_story_creator db sid uid = true ↔
      ∃ s ∈ db.stories, s.id = sid ∧ s.created_by = uid := by
  simp [is_story_creator, List.any_eq_true, Bool.and_eq_true, beq_iff_eq]

theorem removeMember_eq_self (c : UserId) (sid : StoryId) (uid : UserId)
    (db : DB) : removeMember c sid uid db = db := by
  simp [removeMember, story_members_delete_policy]

theorem update_row_id (db : DB) (c : UserId) (sid : StoryId) (pub : Bool)
    (s : Story) :
    (if s.id == sid && stories_update_policy db c s then
      { s with is_public := pub } else s).id = s.id := by
  split <;> rfl

theorem inv_updateStory {db : DB} (h : Inv db) (c : UserId) (sid : StoryId)
    (pub : Bool) : Inv (updateStory c sid pub db) := by
  obtain ⟨hids, hfk, howned, hpairs⟩ := h
  refine ⟨?_, ?_, ?_, ?_⟩
  · unfold storyIdsNodup updateStory
    simp only [List.map_map, Function.comp_def, update_row_id]
    exact hids
  · intro m hm
    obtain ⟨s, hs, hsid⟩ := hfk m hm
    exact ⟨_, List.mem_map_of_mem _ hs, by rw [update_row_id]; exact hsid⟩
  · intro s' hs'
    rw [show (updateStory c sid pub db).stories =
        db.stories.map _ from rfl, List.mem_map] at hs'
    obtain ⟨s, hs, rfl⟩ := hs'
    obtain ⟨m, hm, hmsid, hmr⟩ := howned s hs
    exact ⟨m, hm, by rw [update_row_id]; exact hmsid, hmr⟩
  · exact hpairs

theorem inv_createStory {db : DB} (h : Inv db) (c : UserId) (st : Story) :
    Inv (createStory c st db) := by
  unfold createStory
  split
  case isFalse => exact h
  case isTrue hg =>
    obtain ⟨hpol, hfresh⟩ := Bool.and_eq_true_iff.mp hg
    have hfresh' : ∀ s ∈ db.stories, ¬s.id = st.id := by
      intro s hs
      have := List.all_eq_true.mp hfresh s hs
      simpa using this
    have hnomem : ∀ m ∈ db.story_members, ¬m.story_id = st.id := by
      intro m hm heq
      obtain ⟨s, hs, hsid⟩ := h.fk m hm
      exact hfresh' s hs (hsid.trans heq)
    have htrig : handle_new_story_owner_membership
        { db with stories := st :: db.stories } st =
        ⟨st :: db.stories,
          ⟨st.id, st.created_by, Role.owner⟩ :: db.story_members⟩ := by
      unfold handle_new_story_owner_membership rawInsertMember
      have hany : db.story_members.any
          (fun x => x.story_id == st.id && x.user_id == st.created_by)
          = false := by
        rw [List.any_eq_false]
        intro x hx
        simp only [Bool.and_eq_true, beq_iff_eq, not_and]
        intro hxid
        exact absurd hxid (hnomem x hx)
      simp only [hany]
      rfl
    rw [htrig]
    obtain ⟨hids, hfk, howned, hpairs⟩ := h
    refine ⟨?_, ?_, ?_, ?_⟩
    · refine List.Nodup.cons ?_ hids
      rw [List.mem_map]
      rintro ⟨s, hs, hsid⟩
      exact hfresh' s hs hsid
    · intro m hm
      rcases List.mem_cons.mp hm with rfl | hm'
      · exact ⟨st, List.mem_cons_self .., rfl⟩
      · obtain ⟨s, hs, hsid⟩ := hfk m hm'
        exact ⟨s, List.mem_cons_of_mem _ hs, hsid⟩
    · intro s hs
      rcases List.mem_cons.mp hs with rfl | hs'
      · exact ⟨_, List.mem_cons_self .., rfl, rfl⟩
      · obtain ⟨m, hm, hmsid, hmr⟩ := howned s hs'
        exact ⟨m, List.mem_cons_of_mem _ hm, hmsid, hmr⟩
    · refine List.Nodup.cons ?_ hpairs
      rw [List.mem_map]
      rintro ⟨m, hm, hpair⟩
      have : m.story_id = st.id := congrArg Prod.fst hpair
      exact hnomem m hm this

theorem addMember_inr {c : UserId} {m : Membership} {db db1 : DB}
    (h : addMember c m db = .inr db1) :
    story_members_insert_policy db c m = true ∧
      db.story_members.any
        (fun x => x.story_id == m.story_id && x.user_id == m.user_id)
        = false ∧
      db1 = { db with story_members := m :: db.story_members } := by
  unfold addMember at h
  split at h
  case isFalse => exact absurd h (by simp)
  case isTrue hpol =>
    cases hraw : rawInsertMember db m with
    | ok db2 =>
        rw [hraw] at h
        simp only [Sum.inr.injEq] at h
        subst h
        unfold rawInsertMember at hraw
        split at hraw
        case isTrue => exact absurd hraw (by simp)
        case isFalse hdup =>
          simp only [Except.ok.injEq] at hraw
          exact ⟨hpol, by simpa using hdup, hraw.symm⟩
    | error e =>
        rw [hraw] at h
        exact absurd h (by simp)

theorem inv_addMember {c : UserId} {m : Membership} {db db1 : DB}
    (h : Inv db) (hadd : addMember c m db = .inr db1) : Inv db1 := by
  obtain ⟨hpol, hdup, rfl⟩ := addMember_inr hadd
  obtain ⟨hids, hfk, howned, hpairs⟩ := h
  refine ⟨hids, ?_, ?_, ?_⟩
  · intro x hx
    rcases List.mem_cons.mp hx with rfl | hx'
    · have hcr : is_story_creator db x.story_id c = true := by
        have := Bool.and_eq_true_iff.mp hpol
        exact this.2
      obtain ⟨s, hs, hsid, -⟩ := is_story_creator_iff.mp hcr
      exact ⟨s, hs, hsid⟩
    · exact hfk x hx'
  · intro s hs
    obtain ⟨x, hx, hxsid, hxr⟩ := howned s hs
    exact ⟨x, List.mem_cons_of_mem _ hx, hxsid, hxr⟩
  · refine List.Nodup.cons ?_ hpairs
    rw [List.mem_map]
    rintro ⟨x, hx, hpair⟩
    have h1 : x.story_id = m.story_id := congrArg Prod.fst hpair
    have h2 : x.user_id = m.user_id := congrArg Prod.snd hpair
    have := List.any_eq_false.mp hdup x hx
    simp only [Bool.and_eq_true, beq_iff_eq, not_and] at this
    exact this h1 h2

theorem inv_deleteStory {db : DB} (h : Inv db) (c : UserId)
    (sid : StoryId) : Inv (deleteStory c sid db) := by
  obtain ⟨hids, hfk, howned, hpairs⟩ := h
  have hinj := List.inj_on_of_nodup_map hids
  unfold deleteStory
  refine ⟨?_, ?_, ?_, ?_⟩
  · exact List.Nodup.sublist
      (List.Sublist.map _ (List.filter_sublist _)) hids
  · intro m hm
    rw [List.mem_filter] at hm
    obtain ⟨hm', hkeep⟩ := hm
    obtain ⟨s, hs, hsid⟩ := hfk m hm'
    have hnd : ¬(s.id == sid && stories_delete_policy db c s) = true := by
      intro hd
      rw [Bool.not_eq_true', List.any_eq_false] at hkeep
      have := hkeep s hs
      simp only [Bool.and_eq_true, beq_iff_eq, not_and] at this
      obtain ⟨h1, h2⟩ := Bool.and_eq_true_iff.mp hd
      exact this ⟨beq_iff_eq.mp h1, h2⟩ hsid
    refine ⟨s, List.mem_filter.mpr ⟨hs, ?_⟩, hsid⟩
    rw [Bool.not_eq_true']
    exact Bool.eq_false_iff.mpr hnd
  · intro s hs
    rw [List.mem_filter] at hs
    obtain ⟨hs', hnd⟩ := hs
    obtain ⟨m, hm, hmsid, hmr⟩ := howned s hs'
    refine ⟨m, List.mem_filter.mpr ⟨hm, ?_⟩, hmsid, hmr⟩
    rw [Bool.not_eq_true', List.any_eq_false]
    intro s' hs'mem
    simp only [Bool.and_eq_true, beq_iff_eq, not_and]
    intro hconj hsid'
    have heq : s' = s := hinj hs'mem hs' (hsid'.trans hmsid)
    subst heq
    simp only [Bool.not_eq_true', Bool.and_eq_true_iff, beq_iff_eq] at hnd
    have : ¬(s'.id = sid ∧ stories_delete_policy db c s' = true) := by
      simpa using hnd
    exact this hconj
  · exact List.Nodup.sublist
      (List.Sublist.map _ (List.filter_sublist _)) hpairs

theorem reachable_inv {db : DB} (h : Reachable db) : Inv db := by
  induction h with
  | init =>
      refine ⟨List.nodup_nil, ?_, ?_, List.nodup_nil⟩
      · intro m hm
        cases hm
      · intro s hs
        cases hs
  | create c st _ ih => exact inv_createStory ih c st
  | add c m _ hadd ih => exact inv_addMember ih hadd
  | remove c sid uid _ ih => rw [removeMember_eq_self]; exact ih
  | update c sid pub _ ih => exact inv_updateStory ih c sid pub
  | delete c sid _ ih => exact inv_deleteStory ih c sid

theorem owner_is_member {db : DB} {sid : StoryId} {uid : UserId}
    (h : is_story_owner db sid uid = true) :
    is_story_member db sid uid = true := by
  obtain ⟨m, hm, h1, h2, _⟩ := is_story_owner_iff.mp h
  exact is_story_member_iff.mpr ⟨m, hm, h1, h2⟩

theorem createStory_success {db : DB} (hfk : membersFkOk db)
    {c : UserId} {st : Story} (hc : st.created_by = c)
    (hfresh : ∀ s ∈ db.stories, ¬s.id = st.id) :
    createStory c st db =
      ⟨st :: db.stories,
        ⟨st.id, st.created_by, Role.owner⟩ :: db.story_members⟩ := by
  have hnomem : ∀ m ∈ db.story_members, ¬m.story_id = st.id := by
    intro m hm heq
    obtain ⟨s, hs, hsid⟩ := hfk m hm
    exact hfresh s hs (hsid.trans heq)
  unfold createStory
  have hguard : (stories_insert_policy c st &&
      db.stories.all fun s => !(s.id == st.id)) = true := by
    rw [Bool.and_eq_true_iff]
    constructor
    · simp [stories_insert_policy, hc]
    · rw [List.all_eq_true]
      intro s hs
      simpa using hfresh s hs
  rw [if_pos hguard]
  unfold handle_new_story_owner_membership rawInsertMember
  have hany : db.story_members.any
      (fun x => x.story_id == st.id && x.user_id == st.created_by)
      = false := by
    rw [List.any_eq_false]
    intro x hx
    simp only [Bool.and_eq_true, beq_iff_eq, not_and]
    intro hxid
    exact absurd hxid (hnomem x hx)
  simp only [hany]
  rfl

theorem countP_pair_le_one {l : List Membership}
    (h : (l.map fun m => (m.story_id, m.user_id)).Nodup)
    (sid : StoryId) (uid : UserId) :
    (l.countP fun m => m.story_id == sid && m.user_id == uid) ≤ 1 := by
  induction l with
  | nil => simp
  | cons m rest ih =>
      rw [List.map_cons, List.nodup_cons] at h
      rw [List.countP_cons]
      by_cases hm : (m.story_id == sid && m.user_id == uid) = true
      · have hrest : (rest.countP fun x =>
            x.story_id == sid && x.user_id == uid) = 0 := by
          rw [List.countP_eq_zero]
          intro x hx hxm
          obtain ⟨hx1, hx2⟩ := Bool.and_eq_true_iff.mp hxm
          obtain ⟨hm1, hm2⟩ := Bool.and_eq_true_iff.mp hm
          refine h.1 ?_
          rw [List.mem_map]
          refine ⟨x, hx, ?_⟩
          rw [beq_iff_eq] at hx1 hx2 hm1 hm2
          rw [hx1, hx2, hm1, hm2]
        simp [hm, hrest]
      · simp only [hm, Bool.false_eq_true, if_false, Nat.add_zero]
        exact ih h.2

/-- C1: for every authenticated caller and story row, the stories SELECT
decision grants access exactly when the story is public or the caller
has a `story_members` row for it (any role); so a non-member is denied
on a private story and allowed on a public one. -/
theorem view_iff_public_or_member (db : DB) (caller : UserId) (s : Story) :
    stories_select_policy db caller s = true ↔
      (s.is_public = true ∨
        ∃ m ∈ db.story_members, m.story_id = s.id ∧ m.user_id = caller) := by
  simp [stories_select_policy, Bool.or_eq_true, is_story_member_iff]

/-- C2 counterexample: in the database state after the last migration the
only INSERT policy on `story_members` is the creator-bootstrap policy,
so an existing owner (user 10, owner of story 1) is denied when adding
another user (20) as a member — the claimed steady-state path does not
exist. -/
theorem insert_steady_state_counterexample :
    is_story_owner ⟨[⟨1, "t", false, 10⟩], [⟨1, 10, Role.owner⟩]⟩ 1 10
      = true ∧
    story_members_insert_policy
      ⟨[⟨1, "t", false, 10⟩], [⟨1, 10, Role.owner⟩]⟩ 10
      ⟨1, 20, Role.member⟩ = false ∧
    addMember 10 ⟨1, 20, Role.member⟩
      ⟨[⟨1, "t", false, 10⟩], [⟨1, 10, Role.owner⟩]⟩
      = .inl .forbidden := by
  refine ⟨rfl, rfl, rfl⟩

/-- C2 amended: inserting a membership row (R, U, r) is allowed if and
only if the bootstrap condition holds — U is the caller, r is owner and
R's recorded creator is the caller.  (The steady-state owner path of the
second migration is dropped by the last migration.) -/
theorem insert_iff_bootstrap (db : DB) (caller : UserId) (m : Membership) :
    story_members_insert_policy db caller m = true ↔
      (m.user_id = caller ∧ m.role = Role.owner ∧
        ∃ s ∈ db.stories, s.id = m.story_id ∧ s.created_by = caller) := by
  simp [story_members_insert_policy, Bool.and_eq_true, is_story_creator_iff,
    and_assoc]

/-- C5: the UPDATE and DELETE decisions on stories are the conjunction of
the permissive base policy (public or member) with the restrictive
owner policy, and that conjunction is extensionally the owner-only
predicate. -/
theorem update_delete_owner_only (db : DB) (caller : UserId) (s : Story) :
    (stories_update_policy db caller s =
        (stories_update_base db caller s &&
          stories_update_restrictive db caller s) ∧
      stories_delete_policy db caller s =
        (stories_delete_base db caller s &&
          stories_delete_restrictive db caller s)) ∧
    (stories_update_policy db caller s = true ↔
      is_story_owner db s.id caller = true) ∧
    (stories_delete_policy db caller s = true ↔
      is_story_owner db s.id caller = true) := by
  refine ⟨⟨rfl, rfl⟩, ?_, ?_⟩ <;>
  · constructor
    · intro h
      exact (Bool.and_eq_true_iff.mp h).2
    · intro h
      refine Bool.and_eq_true_iff.mpr ⟨?_, h⟩
      simp only [stories_update_base, stories_delete_base, Bool.or_eq_true]
      exact Or.inr (owner_is_member h)

/-- C6 counterexample: user 10 owns story 1 and user 20 is a member, yet
10's removal of 20 leaves 20's row in place — the last migration dropped
the owner DELETE policy on `story_members` without replacement, so the
claimed owner-removal path does not exist. -/
theorem remove_member_counterexample :
    is_story_owner
      ⟨[⟨1, "t", false, 10⟩], [⟨1, 10, Role.owner⟩, ⟨1, 20, Role.member⟩]⟩
      1 10 = true ∧
    (⟨1, 20, Role.member⟩ : Membership) ∈
      (removeMember 10 1 20
        ⟨[⟨1, "t", false, 10⟩],
          [⟨1, 10, Role.owner⟩, ⟨1, 20, Role.member⟩]⟩).story_members := by
  refine ⟨rfl, ?_⟩
  rw [removeMember_eq_self]
  exact List.mem_cons_of_mem _ (List.mem_cons_self ..)

/-- C6 amended: after the last migration no caller can remove any
membership row through the API — a delete statement always succeeds but
leaves the state unchanged (a no-op, not an error), whether or not the
targeted row exists. -/
theorem remove_member_always_noop (c : UserId) (sid : StoryId)
    (uid : UserId) (db : DB) : removeMember c sid uid db = db :=
  removeMember_eq_self c sid uid db

/-- C3: in every state reachable by the modelled operations, every story
row has at least one owner membership row — no sequence of create story,
add member, remove member, update story, delete story strands a story
without an owner. -/
theorem reachable_story_has_owner {db : DB} (h : Reachable db) :
    ∀ s ∈ db.stories, ∃ m ∈ db.story_members,
      m.story_id = s.id ∧ m.role = Role.owner :=
  (reachable_inv h).owned

theorem reachable_story_has_owner_witness :
    ∃ m ∈ (createStory 10 ⟨1, "t", false, 10⟩ ⟨[], []⟩).story_members,
      m.story_id = (1 : StoryId) ∧ m.role = Role.owner :=
  reachable_story_has_owner
    (Reachable.create 10 ⟨1, "t", false, 10⟩ Reachable.init)
    ⟨1, "t", false, 10⟩ (by decide)

/-- C4: in every reachable state the (story_id, user_id) pairs of
`story_members` are pairwise distinct, and an authorized insert that
duplicates an existing pair fails with a uniqueness Conflict and leaves
the state unchanged. -/
theorem reachable_pairs_unique {db : DB} (h : Reachable db) :
    pairsUnique db ∧
      ∀ (c : UserId) (m : Membership),
        (∃ x ∈ db.story_members,
          x.story_id = m.story_id ∧ x.user_id = m.user_id) →
        story_members_insert_policy db c m = true →
        addMember c m db = .inl .conflict := by
  refine ⟨(reachable_inv h).pairs, ?_⟩
  intro c m hdup hpol
  have hany : db.story_members.any
      (fun x => x.story_id == m.story_id && x.user_id == m.user_id)
      = true := by
    rw [List.any_eq_true]
    obtain ⟨x, hx, h1, h2⟩ := hdup
    exact ⟨x, hx, by simp [h1, h2]⟩
  simp [addMember, rawInsertMember, hpol, hany]

theorem reachable_pairs_unique_witness :
    pairsUnique (createStory 10 ⟨1, "t", false, 10⟩ ⟨[], []⟩) ∧
    addMember 10 ⟨1, 10, Role.owner⟩
      (createStory 10 ⟨1, "t", false, 10⟩ ⟨[], []⟩) = .inl .conflict := by
  have h := reachable_pairs_unique
    (Reachable.create 10 ⟨1, "t", false, 10⟩ Reachable.init)
  exact ⟨h.1, h.2 10 ⟨1, 10, Role.owner⟩ (by decide) (by decide)⟩

/-- C7: creating a story whose id is fresh installs the creator's owner
membership within the same atomic `createStory` step, so
`canManageMembers` for the creator holds immediately afterwards — there
is no intermediate state in which the story exists without its owner. -/
theorem create_then_canManageMembers {db : DB} (h : Reachable db)
    {c : UserId} {st : Story} (hc : st.created_by = c)
    (hfresh : ∀ s ∈ db.stories, ¬s.id = st.id) :
    canManageMembers (createStory c st db) c st.id = true := by
  rw [createStory_success (reachable_inv h).fk hc hfresh]
  unfold canManageMembers
  rw [is_story_owner_iff]
  exact ⟨_, List.mem_cons_self .., rfl, hc, rfl⟩

theorem create_then_canManageMembers_witness :
    canManageMembers (createStory 10 ⟨1, "t", false, 10⟩ ⟨[], []⟩) 10 1
      = true :=
  create_then_canManageMembers Reachable.init rfl
    (by intro s hs; cases hs)

theorem trigger_absorbs {db : DB} {st : Story}
    (h : rawInsertMember db ⟨st.id, st.created_by, Role.owner⟩
      = .error DbError.conflict) :
    handle_new_story_owner_membership db st = db := by
  unfold handle_new_story_owner_membership
  rw [h]

/-- C8: firing the ownership-establishment trigger twice for the same
story leaves exactly one membership row for (story, creator) — the
creator's owner row — and no error surfaces: the second invocation's
underlying insert hits the uniqueness Conflict, which `ON CONFLICT DO
NOTHING` absorbs, leaving the state of the first invocation unchanged. -/
theorem trigger_double_fire {db : DB} {st : Story}
    (hfresh : ∀ x ∈ db.story_members,
      ¬(x.story_id = st.id ∧ x.user_id = st.created_by)) :
    rawInsertMember (handle_new_story_owner_membership db st)
        ⟨st.id, st.created_by, Role.owner⟩ = .error DbError.conflict ∧
    handle_new_story_owner_membership
        (handle_new_story_owner_membership db st) st
      = handle_new_story_owner_membership db st ∧
    ((handle_new_story_owner_membership db st).story_members.countP
        fun m => m.story_id == st.id && m.user_id == st.created_by) = 1 ∧
    (⟨st.id, st.created_by, Role.owner⟩ : Membership) ∈
      (handle_new_story_owner_membership db st).story_members := by
  have hany : db.story_members.any
      (fun x => x.story_id == st.id && x.user_id == st.created_by)
      = false := by
    rw [List.any_eq_false]
    intro x hx
    simp only [Bool.and_eq_true, beq_iff_eq]
    exact hfresh x hx
  have h1 : handle_new_story_owner_membership db st =
      { db with story_members :=
          ⟨st.id, st.created_by, Role.owner⟩ :: db.story_members } := by
    unfold handle_new_story_owner_membership rawInsertMember
    simp only [hany]
    rfl
  have hconf : rawInsertMember (handle_new_story_owner_membership db st)
      ⟨st.id, st.created_by, Role.owner⟩ = .error DbError.conflict := by
    rw [h1]
    unfold rawInsertMember
    have hany2 : ((⟨st.id, st.created_by, Role.owner⟩ :: db.story_members
        : List Membership).any
        fun x => x.story_id == st.id && x.user_id == st.created_by)
        = true := by
      simp
    simp only [hany2]
    rfl
  refine ⟨hconf, trigger_absorbs hconf, ?_, ?_⟩
  · rw [h1]
    show (List.countP _ (_ :: _)) = 1
    rw [List.countP_cons]
    have hz : db.story_members.countP
        (fun m => m.story_id == st.id && m.user_id == st.created_by)
        = 0 := by
      rw [List.countP_eq_zero]
      intro x hx hxm
      obtain ⟨hx1, hx2⟩ := Bool.and_eq_true_iff.mp hxm
      exact hfresh x hx ⟨beq_iff_eq.mp hx1, beq_iff_eq.mp hx2⟩
    simp [hz]
  · rw [h1]
    exact List.mem_cons_self ..

theorem trigger_double_fire_witness :
    rawInsertMember
        (handle_new_story_owner_membership
          ⟨[⟨1, "t", false, 10⟩], []⟩ ⟨1, "t", false, 10⟩)
        ⟨1, 10, Role.owner⟩ = .error DbError.conflict ∧
    handle_new_story_owner_membership
        (handle_new_story_owner_membership
          ⟨[⟨1, "t", false, 10⟩], []⟩ ⟨1, "t", false, 10⟩)
        ⟨1, "t", false, 10⟩
      = handle_new_story_owner_membership
          ⟨[⟨1, "t", false, 10⟩], []⟩ ⟨1, "t", false, 10⟩ ∧
    ((handle_new_story_owner_membership
        ⟨[⟨1, "t", false, 10⟩], []⟩ ⟨1, "t", false, 10⟩).story_members.countP
      fun m => m.story_id == 1 && m.user_id == 10) = 1 ∧
    (⟨1, 10, Role.owner⟩ : Membership) ∈
      (handle_new_story_owner_membership
        ⟨[⟨1, "t", false, 10⟩], []⟩ ⟨1, "t", false, 10⟩).story_members :=
  trigger_double_fire (by intro x hx; cases hx)

/-- C9: a caller with no view rights on story id `sid` gets the same
uniform empty (`Forbidden`) outcome whether a private story with that id
exists or the database contains no trace of it — denied fetches do not
leak existence. -/
theorem denied_view_uniform {db : DB} {caller : UserId} {sid : StoryId}
    (hpriv : ∀ s ∈ db.stories, s.id = sid → s.is_public = false)
    (hnomem : ∀ m ∈ db.story_members,
      m.story_id = sid → ¬m.user_id = caller) :
    fetchStory db caller sid = fetchStory (eraseStory sid db) caller sid ∧
    fetchStory db caller sid = none := by
  have h1 : fetchStory db caller sid = none := by
    rw [fetchStory, List.find?_eq_none]
    intro s hs
    rw [visibleStories, List.mem_filter] at hs
    obtain ⟨hsmem, hpol⟩ := hs
    simp only [beq_iff_eq]
    intro hsid
    unfold stories_select_policy at hpol
    rw [Bool.or_eq_true] at hpol
    rcases hpol with hpub | hmem
    · rw [hpriv s hsmem hsid] at hpub
      cases hpub
    · obtain ⟨m, hm, hmsid, hmuid⟩ := is_story_member_iff.mp hmem
      exact hnomem m hm (by rw [hmsid, hsid]) hmuid
  have h2 : fetchStory (eraseStory sid db) caller sid = none := by
    rw [fetchStory, List.find?_eq_none]
    intro s hs
    rw [visibleStories, List.mem_filter] at hs
    have hsmem := hs.1
    simp only [eraseStory, List.mem_filter, Bool.not_eq_true',
      beq_eq_false_iff_ne] at hsmem
    simp only [beq_iff_eq]
    exact hsmem.2
  exact ⟨h1.trans h2.symm, h1⟩

theorem denied_view_uniform_witness :
    fetchStory ⟨[⟨1, "t", false, 10⟩], [⟨1, 10, Role.owner⟩]⟩ 20 1
      = fetchStory
          (eraseStory 1 ⟨[⟨1, "t", false, 10⟩], [⟨1, 10, Role.owner⟩]⟩)
          20 1 ∧
    fetchStory ⟨[⟨1, "t", false, 10⟩], [⟨1, 10, Role.owner⟩]⟩ 20 1
      = none :=
  denied_view_uniform (by decide) (by decide)

theorem fetchStories_cnt_le_one {db : DB} (h : pairsUnique db)
    (caller : UserId) (sid : StoryId) (ids : List StoryId) :
    (((visibleMembers db caller).filter
        fun m => ids.contains m.story_id).countP
      fun m => m.story_id == sid) ≤ 1 := by
  rw [visibleMembers, List.countP_filter, List.countP_filter]
  refine le_trans (List.countP_mono_left ?_)
    (countP_pair_le_one h sid caller)
  intro x _ hcomb
  simp only [story_members_select_policy, Bool.and_eq_true,
    beq_iff_eq] at hcomb
  simp only [Bool.and_eq_true, beq_iff_eq]
  exact ⟨hcomb.1.1, hcomb.2.symm⟩

/-- C10: under the pair-uniqueness constraint, every story the
Dashboard's `fetchStories` returns for a caller carries
`member_count = 1`: the self-scoped SELECT policy on `story_members`
lets the caller see only their own row per story, so the computed count
never exceeds one. -/
theorem dashboard_member_count_one {db : DB} (h : pairsUnique db)
    (caller : UserId) : ∀ p ∈ fetchStories db caller, p.2 = 1 := by
  intro p hp
  unfold fetchStories at hp
  simp only [List.mem_map] at hp
  obtain ⟨s, hs, rfl⟩ := hp
  show (if _ = 0 then 1 else _) = 1
  split
  · rfl
  case isFalse hne =>
    have hle := fetchStories_cnt_le_one h caller s.id
      (((visibleMembers db caller).filter
        fun m => m.user_id == caller).map Membership.story_id)
    omega

theorem dashboard_member_count_one_witness :
    pairsUnique
      ⟨[⟨1, "t", false, 10⟩],
        [⟨1, 10, Role.owner⟩, ⟨1, 20, Role.member⟩]⟩ ∧
    ∀ p ∈ fetchStories
        ⟨[⟨1, "t", false, 10⟩],
          [⟨1, 10, Role.owner⟩, ⟨1, 20, Role.member⟩]⟩ 10,
      p.2 = 1 :=
  ⟨by unfold pairsUnique; decide,
    dashboard_member_count_one (by unfold pairsUnique; decide) 10⟩

end Storybook
